import Mathlib

/-!
Verification of the RAG engine of this repository (lab8.py, lab4.py) against
its natural-language specification.  Python strings are embedded as `List Char`,
Python floats as `ℚ`, fallible external service calls as `Option`/`Except`.
-/

namespace Rag

/-! ## Python string and slice primitives -/

/-- Characters removed by Python `str.strip()` (ASCII whitespace subset;
the inputs in all claims are ASCII). -/
def pyWS (c : Char) : Bool :=
  c == ' ' || c == '\n' || c == '\t' || c == '\r' || c == '\x0b' || c == '\x0c'

/-- Python `s.strip()`. -/
def pyStrip (l : List Char) : List Char :=
  ((l.dropWhile pyWS).reverse.dropWhile pyWS).reverse

/-- Normalisation of a Python slice index `i` against a sequence of length `n`:
negative indices count from the end, and the result is clamped to `[0, n]`. -/
def pySliceIdx (n : ℕ) (i : ℤ) : ℕ :=
  if i < 0 then (max 0 ((n : ℤ) + i)).toNat else min i.toNat n

/-- Python `l[a:]`. -/
def pySliceFrom (l : List α) (a : ℤ) : List α :=
  l.drop (pySliceIdx l.length a)

/-- Python `l[a:b]`. -/
def pySlice (l : List α) (a b : ℤ) : List α :=
  (l.take (pySliceIdx l.length b)).drop (pySliceIdx l.length a)

/-! ## Retrieval (lab8.py, `retrieve_relevant_chunks`, lines 64-89)

The cosine-similarity array `cosine_similarity(query_embedding, embeddings_array)[0]`
is an external numpy/sklearn computation over the query embedding; it is passed in
as the list `sims`, positionally aligned with `chunks` (in the app both come from
the same stored document entry, so they have equal length). -/

/-- One element of the `results` list built by `retrieve_relevant_chunks`:
the dict `\x7b'chunk': ..., 'similarity': ..., 'index': ...\x7d`, to which
`rerank_chunks` later adds the key `'rerank_score'` (hence the `Option`:
`none` means the key is absent). -/
structure Hit where
  chunk : List Char
  similarity : ℚ
  index : ℕ
  rerank_score : Option ℚ
deriving DecidableEq, Repr

/-- The ordering used to model `np.argsort(similarities)` as a deterministic
stable ascending sort: sort positions by value, breaking ties by the original
position. -/
def argLE (sims : List ℚ) (a b : ℕ) : Prop :=
  sims.getD a 0 < sims.getD b 0 ∨ (sims.getD a 0 = sims.getD b 0 ∧ a ≤ b)

instance (sims : List ℚ) : DecidableRel (argLE sims) := fun _a _b =>
  inferInstanceAs (Decidable (_ ∨ _))

/-- Model of `np.argsort(similarities)`: the positions `0..n-1` sorted by ascending
similarity (stable: ties keep ascending position order). -/
def pyArgsort (sims : List ℚ) : List ℕ :=
  (List.range sims.length).insertionSort (argLE sims)

/-- Model of `retrieve_relevant_chunks` (lab8.py lines 64-89) after the query embedding
succeeded: `top_indices = np.argsort(similarities)[-top_k:][::-1]`, then one
result dict per selected position.  `top_k : ℤ` so that the Python slice
semantics for zero and negative `top_k` are captured. -/
def retrieve_relevant_chunks (chunks : List (List Char)) (sims : List ℚ)
    (top_k : ℤ) : List Hit :=
  ((pySliceFrom (pyArgsort sims) (-top_k)).reverse).map fun idx =>
    { chunk := chunks.getD idx [], similarity := sims.getD idx 0,
      index := idx, rerank_score := none }

/-! ## Re-ranking (lab8.py, `rerank_chunks`, lines 91-131) -/

/-- The character filter on line 120:
`filter(lambda x: x.isdigit() or x == '.', score_text)`. -/
def pyFilterNum (s : List Char) : List Char :=
  s.filter (fun c => c.isDigit || c == '.')

/-- Decimal value of a digit string. -/
def digitsVal (s : List Char) : ℕ :=
  s.foldl (fun n c => 10 * n + (c.toNat - 48)) 0

/-- Python `float(s)` on a string made of digits and dots only (the output of
`pyFilterNum`): `none` models the `ValueError` raised for the empty string,
a bare `"."`, or more than one dot — which the bare `except` then catches. -/
def pyFloatNum (s : List Char) : Option ℚ :=
  if s = [] then none
  else
    match s.splitOn '.' with
    | [a] => some (digitsVal a)
    | [a, b] =>
      if a = [] ∧ b = [] then none
      else some ((digitsVal a : ℚ) + (digitsVal b : ℚ) / (10 ^ b.length))
    | _ => none

/-- The per-hit score computed by lines 107-127 of lab8.py: on a successful
scoring call with response text `t`, strip it, keep all digit and dot
characters, parse them with `float`, and clamp with `min(max(score, 0), 10)`;
if the call failed, or parsing raised `ValueError`, fall back to
`similarity * 10`. -/
def scoreOf (resp : Except Unit (List Char)) (sim : ℚ) : ℚ :=
  match resp with
  | .error _ => sim * 10
  | .ok t =>
    match pyFloatNum (pyFilterNum (pyStrip t)) with
    | none => sim * 10
    | some x => min (max x 0) 10

/-- Model of `rerank_chunks` (lab8.py lines 91-131): score every retrieved hit with one
independent LLM call (`scoreFn` is the external chat-completion service
returning the response text, or failing), attach `'rerank_score'`, then
`reranked.sort(key=lambda x: x['rerank_score'], reverse=True)` — Python's
stable descending sort. -/
def rerank_chunks (retrieved : List Hit) (scoreFn : Hit → Except Unit (List Char)) :
    List Hit :=
  if retrieved = [] then []
  else
    (retrieved.map fun item =>
      { item with rerank_score := some (scoreOf (scoreFn item) item.similarity) }
    ).insertionSort fun a b => (b.rerank_score.getD 0) ≤ (a.rerank_score.getD 0)

/-! ## Answer generation (lab8.py, `generate_answer`, lines 133-172) -/

/-- One annotated excerpt of the context block built on lines 136-139:
`f"[Source \x7bi+1\x7d, Relevance: \x7bchunk['rerank_score']:.2f\x7d/10]\n\x7bchunk['chunk'][:800]\x7d"`.
The interpolation into one flat string is abstracted into this record: the
source number `i+1`, the relevance score displayed, and the truncated chunk
text. -/
structure Excerpt where
  src_num : ℕ
  relevance : ℚ
  body : List Char
deriving DecidableEq, Repr

/-- The context block of `generate_answer` (lab8.py lines 136-139): one excerpt
per hit in `relevant_chunks[:3]`.  The dict access `chunk['rerank_score']`
raises `KeyError` when the key is absent (`rerank_score = none`), modeled as
`Except.error ()`; this happens before the `try` on line 159, so it is not
caught. -/
def buildContext (hits : List Hit) : Except Unit (List Excerpt) :=
  (hits.take 3).enum.mapM fun ie =>
    match ie.2.rerank_score with
    | some r => .ok ⟨ie.1 + 1, r, ie.2.chunk.take 800⟩
    | none => .error ()

/-- Model of `generate_answer` (lab8.py lines 133-172).  `answerFn` is the external
chat-completion call issued with the prompt containing the context block (the
fixed prompt text, query and company name are absorbed into `answerFn`); on an
API exception the function returns the string
`f"Error generating answer: \x7bstr(e)\x7d"` as the answer (line 172). -/
def generate_answer (hits : List Hit)
    (answerFn : List Excerpt → Except (List Char) (List Char)) :
    Except Unit (List Char) :=
  match buildContext hits with
  | .error e => .error e
  | .ok ctx =>
    match answerFn ctx with
    | .ok t => .ok t
    | .error e => .ok ("Error generating answer: ".toList ++ e)

/-! ## Query pipeline (lab8.py, `main`, lines 301-334) -/

deriving instance DecidableEq for Except

/-- Outcome of one query in `main`: the hits handed to generation
(`final_chunks`), the number of per-hit LLM scoring calls made by the
re-ranking stage, whether `generate_answer` was invoked, and its result. -/
structure PipelineResult where
  final_chunks : List Hit
  rerank_llm_calls : ℕ
  generator_invoked : Bool
  answer : Except Unit (List Char)
deriving DecidableEq, Repr

/-- The query-processing section of `main` (lab8.py lines 301-334):
`retrieved` is the output of `retrieve_relevant_chunks`; if re-ranking is
enabled the hits are re-ranked (one scoring call per hit), otherwise
`final_chunks = retrieved`; then `generate_answer` is called unconditionally. -/
def answer_pipeline (use_reranking : Bool) (retrieved : List Hit)
    (scoreFn : Hit → Except Unit (List Char))
    (answerFn : List Excerpt → Except (List Char) (List Char)) : PipelineResult :=
  let final_chunks := if use_reranking then rerank_chunks retrieved scoreFn
    else retrieved
  { final_chunks := final_chunks
    rerank_llm_calls := if use_reranking then retrieved.length else 0
    generator_invoked := true
    answer := generate_answer final_chunks answerFn }

/-! ## Chunker (lab4.py, `chunk_text`, lines 59-79) -/

/-- The paragraph list of lab4's `chunk_text`:
`paras = [p.strip() for p in text.split("\n") if p.strip()]`. -/
def pyParas (text : List Char) : List (List Char) :=
  ((text.splitOn '\n').map pyStrip).filter (fun p => p ≠ [])

/-- One iteration of the `for p in paras` loop of lab4's `chunk_text`
(lines 65-76), acting on the state `(chunks, cur)`. -/
def chunkStep (maxc ov : ℕ) (st : List (List Char) × List Char) (p : List Char) :
    List (List Char) × List Char :=
  if st.2.length + p.length + 1 ≤ maxc then
    (st.1, pyStrip (st.2 ++ '\n' :: p))
  else if st.2 ≠ [] then
    (st.1 ++ [st.2],
      pyStrip ((if 0 < ov then pySliceFrom st.2 (-(ov : ℤ)) else []) ++ '\n' :: p))
  else
    (st.1 ++ [p.take maxc],
      pySlice p (max 0 ((maxc : ℤ) - (ov : ℤ))) ((maxc : ℤ) - (ov : ℤ) + (maxc : ℤ)))

/-- Model of `chunk_text` (lab4.py lines 59-79): fold the paragraphs through
`chunkStep` starting from `chunks = [], cur = ""`, then append the final
non-empty buffer. -/
def chunk_text (text : List Char) (maxc ov : ℕ) : List (List Char) :=
  let r := (pyParas text).foldl (chunkStep maxc ov) ([], [])
  if r.2 ≠ [] then r.1 ++ [r.2] else r.1

/-! ## Ingestion in lab8.py (`main`, lines 241-263)

For each uploaded document, `main` loops over the chunks, appends to
`embeddings` only the results that are truthy (a failed call returns `None`,
and an empty list is also falsy), and then stores
`'chunks': chunks[:len(embeddings)]` next to `'embeddings': embeddings`. -/

/-- The embedding loop and the stored pair
`(chunks[:len(embeddings)], embeddings)` of lab8.py lines 241-258.
`embedFn` is the external embedding service: `none` models a call that
failed (`get_embedding` returned `None`). -/
def ingest_document (chunks : List (List Char))
    (embedFn : List Char → Option (List ℚ)) :
    List (List Char) × List (List ℚ) :=
  let embeddings := chunks.foldl (fun acc c =>
    match embedFn c with
    | some v => if v.isEmpty then acc else acc ++ [v]
    | none => acc) []
  (chunks.take embeddings.length, embeddings)

/-- A stub embedding service that fails exactly on the chunk `"a"` and returns
the vector `[1]` for every other chunk. -/
def embedFailsOnA : List Char → Option (List ℚ) := fun c =>
  if c = ['a'] then none else some [1]

/-! ## Ingestion in lab4.py (`build_or_refresh_collection`, lines 95-152)

The ChromaDB collection is an external store (spec §6: persistence is an
external collaborator).  Its `add` call is modeled from the repository's own
usage: lab4.py line 117 ("Deterministic, file-based id so re-runs won't
duplicate") and line 123 ("if duplicates exist, fall back to per-item add")
rely on `add` rejecting a batch that contains an id already present (or
repeated inside the batch) and storing nothing in that case. -/

/-- The deterministic chunk id of lab4.py line 118: `f"\x7bfname\x7d::chunk-\x7bidx\x7d"`. -/
def chunkKey (fname : String) (idx : ℕ) : String :=
  fname ++ "::chunk-" ++ toString idx

/-- The external collection: stored `(id, document)` pairs in insertion
order. -/
abbrev Store := List (String × List Char)

/-- Does the store already contain an entry with this id? -/
def storeHas (s : Store) (i : String) : Bool :=
  s.any fun e => e.1 == i

/-- The external store's `collection.add`: fails (raising, modeled as
`Except.error`) without storing anything if any id is already present or the
batch repeats an id; otherwise appends all entries. -/
def collAdd (s : Store) (entries : List (String × List Char)) : Except Unit Store :=
  if (entries.any fun e => storeHas s e.1) = true ∨ ¬ (entries.map Prod.fst).Nodup then
    .error ()
  else
    .ok (s ++ entries)

/-- One iteration of the per-item fallback loop of lab4.py lines 136-145:
try to add one entry alone, ignoring a failure. -/
def stepItem (st : Store) (e : String × List Char) : Store :=
  match collAdd st [e] with
  | .ok s2 => s2
  | .error _ => st

/-- The per-item fallback loop of lab4.py lines 136-145. -/
def addItems (s : Store) (entries : List (String × List Char)) : Store :=
  entries.foldl stepItem s

/-- One batch iteration of lab4.py lines 126-145: try the whole batch, and on
failure fall back to per-item adds. -/
def stepBatch (s : Store) (b : List (String × List Char)) : Store :=
  match collAdd s b with
  | .ok s2 => s2
  | .error _ => addItems s b

/-- The batching of lab4.py line 125-126: `batch = 512`,
`for start in range(0, len(to_add_ids), batch)`. -/
def toBatches : List α → List (List α)
  | [] => []
  | x :: xs => ((x :: xs).take 512) :: toBatches ((x :: xs).drop 512)
termination_by l => l.length
decreasing_by
  simp only [List.length_drop, List.length_cons]
  omega

/-- The `to_add_ids`/`to_add_docs` accumulation of lab4.py lines 108-121: for
each PDF (given as `(fname, text)`, the extracted text being external input),
skip empty texts, chunk with the default configuration
`max_chars = 1400, overlap = 150`, and emit one `(id, chunk)` entry per chunk
index.  (The parallel `metadatas` list carries the same `(source, chunk)`
pair and is omitted.) -/
def buildEntries (pdfs : List (String × List Char)) : List (String × List Char) :=
  pdfs.foldl (fun acc fp =>
    if fp.2 = [] then acc
    else acc ++ ((chunk_text fp.2 1400 150).enum.map fun ic =>
      (chunkKey fp.1 ic.1, ic.2))) []

/-- Model of `build_or_refresh_collection` (lab4.py lines 95-152) acting on the
external store: build all entries, then add them in batches of 512 with the
per-item fallback. -/
def build_or_refresh_collection (s : Store) (pdfs : List (String × List Char)) :
    Store :=
  (toBatches (buildEntries pdfs)).foldl stepBatch s

/-! ## Reference definitions and stubs used in the theorems -/

/-- Modelled from the spec: the re-rank response parsing rule of §4.4,
"extract the first numeric token from the model's text, clamp it to `[0, 10]`"
— stated for comparison with the code's actual rule in `scoreOf`.  The first
numeric token is the first maximal run of digit/dot characters. -/
def specFirstNumericScore (t : List Char) : Option ℚ :=
  (pyFloatNum ((t.dropWhile fun c => !(c.isDigit || c == '.')).takeWhile
    fun c => c.isDigit || c == '.')).map fun x => min (max x 0) 10

/-- Stub scoring service whose response text is `"7 out of 10"`. -/
def stubScoreSeven : Hit → Except Unit (List Char) := fun _ =>
  .ok ('7' :: ' ' :: 'o' :: 'u' :: 't' :: ' ' :: 'o' :: 'f' :: ' ' :: '1' :: '0' :: [])

/-- Stub generation service answering `"HELLO"` to any context. -/
def stubAnswerHello : List Excerpt → Except (List Char) (List Char) := fun _ =>
  .ok ('H' :: 'E' :: 'L' :: 'L' :: 'O' :: [])

/-- A retrieval hit exactly as `retrieve_relevant_chunks` produces it: the
`'rerank_score'` key is absent. -/
def hitPlain : Hit :=
  { chunk := ['t'], similarity := 1, index := 0, rerank_score := none }

/-- The hit `hitPlain` after re-ranking with the response `"7 out of 10"`: all digits
of the response are concatenated to `710`, parsed, and clamped to `10`. -/
def hitSeven : Hit :=
  { chunk := ['t'], similarity := 1, index := 0, rerank_score := some 10 }

/-- The three-paragraph sample text `"ab\ncd\nef"`. -/
def sampleText : List Char :=
  'a' :: 'b' :: '\n' :: 'c' :: 'd' :: '\n' :: 'e' :: 'f' :: []

/-- What lab4's `chunk_text` on `sampleText` with `max_chars = 3` returns for
every `overlap ≥ 5`: each closed buffer is carried whole into the next chunk. -/
def overlapFiveOut : List (List Char) :=
  [['a', 'b'], ['a', 'b', '\n', 'c', 'd'], ['a', 'b', '\n', 'c', 'd', '\n', 'e', 'f']]

/-! ## Claim theorems -/

/-- C1: evaluation of the ingestion code at the failing input.  With two
chunks `"a"`, `"b"` where the embedding call fails exactly on `"a"`, lab8's
`chunks[:len(embeddings)]` stores the chunk list `[["a"]]` next to the vector
list `[[1]]`: the chunk whose own embedding failed is retained (paired with
the other chunk's vector) instead of being dropped with its slot — the lists
are realigned by truncating chunks by count from the end, which the claim
says never happens. -/
theorem c1_truncation_by_count_eval :
    ingest_document [['a'], ['b']] embedFailsOnA = ([['a']], [[1]])
    ∧ embedFailsOnA ['a'] = none ∧ embedFailsOnA ['b'] = some [1] := by decide

/-- C2 counterexample: on zero retrieval hits the pipeline does not
short-circuit — the generator is invoked and the answer is whatever the
external model returns (here the stub's `"HELLO"`), not a fixed
no-relevant-material statement. -/
theorem c2_counterexample :
    (answer_pipeline true [] stubScoreSeven stubAnswerHello).generator_invoked = true
    ∧ (answer_pipeline true [] stubScoreSeven stubAnswerHello).answer
      = .ok ('H' :: 'E' :: 'L' :: 'L' :: 'O' :: []) := by decide

/-- C2 (amended): for every query whose retrieval returns zero hits, the
pipeline does not short-circuit: the re-ranking stage makes no scoring calls
and passes an empty hit list on, but the generator is always invoked (with an
empty context block) and its result is returned as the answer. -/
theorem c2_no_short_circuit (use_rr : Bool)
    (scoreFn : Hit → Except Unit (List Char))
    (answerFn : List Excerpt → Except (List Char) (List Char)) :
    (answer_pipeline use_rr [] scoreFn answerFn).final_chunks = []
    ∧ (answer_pipeline use_rr [] scoreFn answerFn).rerank_llm_calls = 0
    ∧ (answer_pipeline use_rr [] scoreFn answerFn).generator_invoked = true
    ∧ (answer_pipeline use_rr [] scoreFn answerFn).answer
      = generate_answer [] answerFn := by
  cases use_rr <;> simp [answer_pipeline, rerank_chunks]

/-- C3: evaluation at the failing input.  With re-ranking disabled the
retrieval hits are passed through unchanged (first conjunct), but answer
generation does not complete normally: building the context block reads
`chunk['rerank_score']`, a key retrieval hits do not have, so `generate_answer`
raises `KeyError` (modeled as `Except.error ()`) instead of producing an
answer. -/
theorem c3_keyerror_eval :
    (answer_pipeline false [hitPlain] stubScoreSeven stubAnswerHello).final_chunks
      = [hitPlain]
    ∧ (answer_pipeline false [hitPlain] stubScoreSeven stubAnswerHello).answer
      = .error () := by decide

/-- C4 counterexample: two chunks with equal similarity are returned in
reversed original order `[1, 0]`, not the claimed preserved order `[0, 1]`:
`np.argsort(...)[ -k: ][::-1]` reverses the tie order. -/
theorem c4_counterexample :
    (retrieve_relevant_chunks [['a'], ['b']] [1, 1] 2).map Hit.index = [1, 0]
    ∧ (retrieve_relevant_chunks [['a'], ['b']] [1, 1] 2).map Hit.index ≠ [0, 1] := by
  decide

/-- C5 counterexample: on the response text `"7 out of 10"` the code
concatenates every digit of the response (`float("710") = 710`, clamped to
`10`), while the claimed first-numeric-token rule yields `7`. -/
theorem c5_counterexample :
    (rerank_chunks [hitPlain] stubScoreSeven).map Hit.rerank_score = [some 10]
    ∧ specFirstNumericScore
        ('7' :: ' ' :: 'o' :: 'u' :: 't' :: ' ' :: 'o' :: 'f' :: ' ' :: '1' :: '0' :: [])
      = some 7
    ∧ (10 : ℚ) ≠ 7 := by decide

/-- C6 counterexample: with `max_chars = 10, overlap = 2` (a valid
configuration) and the text `"ab\nxxxxxxxxxxxx"` whose second paragraph (12
characters) alone exceeds `max_chars`, the emitted chunks have lengths
`[2, 15]`: the second chunk exceeds `max_chars`, is not a hard cut of exactly
`max_chars = 10`, and is not the paragraph's remaining length `12` either —
the oversized paragraph was appended whole to the overlap tail. -/
theorem c6_counterexample :
    (chunk_text
        ('a' :: 'b' :: '\n' :: 'x' :: 'x' :: 'x' :: 'x' :: 'x' :: 'x' :: 'x' :: 'x' ::
          'x' :: 'x' :: 'x' :: 'x' :: []) 10 2).map List.length = [2, 15]
    ∧ ¬ (15 ≤ 10) ∧ (15 : ℕ) ≠ 12 := by decide

/-- C7 counterexample: called with `overlap = 5 ≥ max_chars = 3`, lab4's
`chunk_text` neither raises nor clamps: it returns a result, and that result
differs from the result under every valid clamped overlap (`0`, `1` and `2`)
— the invalid configuration is silently used as-is. -/
theorem c7_counterexample :
    chunk_text sampleText 3 5 = overlapFiveOut
    ∧ chunk_text sampleText 3 0 ≠ overlapFiveOut
    ∧ chunk_text sampleText 3 1 ≠ overlapFiveOut
    ∧ chunk_text sampleText 3 2 ≠ overlapFiveOut := by decide

/-- C9 counterexample: `retrieve` called with `k = 0` on a non-empty index
returns every hit (Python's `l[-0:]` is the whole list), not an empty
sequence. -/
theorem c9_counterexample :
    (retrieve_relevant_chunks [['a']] [1] 0).length = 1
    ∧ retrieve_relevant_chunks [['a']] [1] 0 ≠ [] := by decide

lemma length_pyArgsort (sims : List ℚ) : (pyArgsort sims).length = sims.length := by
  unfold pyArgsort
  rw [List.length_insertionSort, List.length_range]

/-- C9 (amended): `retrieve` with `k ≤ 0` does not raise and does not return
an empty sequence in general — following Python slice semantics it drops the
`|k|` lowest-similarity positions, returning `count() - |k|` hits (all hits
for `k = 0`, and an empty sequence only when `|k| ≥ count()`, in particular on
an empty index). -/
theorem c9_nonpositive_k (chunks : List (List Char)) (sims : List ℚ) (k : ℤ)
    (hk : k ≤ 0) :
    (retrieve_relevant_chunks chunks sims k).length = sims.length - (-k).toNat
    ∧ (sims = [] → retrieve_relevant_chunks chunks sims k = []) := by
  have hlen : (retrieve_relevant_chunks chunks sims k).length
      = sims.length - (-k).toNat := by
    unfold retrieve_relevant_chunks pySliceFrom pySliceIdx
    simp only [List.length_map, List.length_reverse, List.length_drop]
    rw [length_pyArgsort, if_neg (by omega : ¬ (-k < 0))]
    omega
  refine ⟨hlen, fun hs => ?_⟩
  have h0 : (retrieve_relevant_chunks chunks sims k).length = 0 := by
    rw [hlen, hs]; simp
  exact List.length_eq_zero.mp h0

/-- Witness for `c9_nonpositive_k` at `k = -1` on a two-entry index. -/
theorem c9_witness :
    (retrieve_relevant_chunks [['a'], ['b']] [1, 2] (-1)).length = 1 := by
  have h := (c9_nonpositive_k [['a'], ['b']] [1, 2] (-1) (by decide)).1
  norm_num at h
  exact h

/-- C4 (amended): for every index and `k ≥ 1`, `retrieve` returns exactly
`min(k, count())` hits sorted by non-increasing similarity — but the tie-break
is reversed, not preserved: among hits of equal similarity the one with the
larger original position comes first (with `np.argsort` modeled as a stable
ascending sort, which the trailing `[::-1]` reverses). -/
theorem c4_sorted_desc (chunks : List (List Char)) (sims : List ℚ) (k : ℤ)
    (hk : 1 ≤ k) :
    (retrieve_relevant_chunks chunks sims k).length = min k.toNat sims.length
    ∧ (retrieve_relevant_chunks chunks sims k).Pairwise
        (fun a b => b.similarity ≤ a.similarity
          ∧ (b.similarity = a.similarity → b.index ≤ a.index)) := by
  constructor
  · unfold retrieve_relevant_chunks pySliceFrom pySliceIdx
    simp only [List.length_map, List.length_reverse, List.length_drop]
    rw [length_pyArgsort, if_pos (by omega : -k < 0)]
    omega
  · have hsorted : List.Pairwise (argLE sims) (pyArgsort sims) := by
      unfold pyArgsort
      haveI ht : IsTotal ℕ (argLE sims) := ⟨fun a b => by
        unfold argLE
        rcases lt_trichotomy (sims.getD a 0) (sims.getD b 0) with h | h | h
        · exact Or.inl (Or.inl h)
        · rcases Nat.le_total a b with hab | hab
          · exact Or.inl (Or.inr ⟨h, hab⟩)
          · exact Or.inr (Or.inr ⟨h.symm, hab⟩)
        · exact Or.inr (Or.inl h)⟩
      haveI htr : IsTrans ℕ (argLE sims) := ⟨fun a b c hab hbc => by
        unfold argLE at hab hbc ⊢
        rcases hab with h1 | ⟨he1, hl1⟩ <;> rcases hbc with h2 | ⟨he2, hl2⟩
        · exact Or.inl (h1.trans h2)
        · exact Or.inl (he2 ▸ h1)
        · exact Or.inl (he1 ▸ h2)
        · exact Or.inr ⟨he1.trans he2, hl1.trans hl2⟩⟩
      exact List.sorted_insertionSort _ _
    have hdrop : List.Pairwise (argLE sims) (pySliceFrom (pyArgsort sims) (-k)) :=
      List.Pairwise.sublist (by unfold pySliceFrom; exact List.drop_sublist _ _) hsorted
    have hrev : List.Pairwise (fun a b => argLE sims b a)
        ((pySliceFrom (pyArgsort sims) (-k)).reverse) :=
      List.pairwise_reverse.mpr hdrop
    unfold retrieve_relevant_chunks
    refine List.Pairwise.map _ (fun a b hab => ?_) hrev
    unfold argLE at hab
    refine ⟨?_, ?_⟩
    · rcases hab with h | ⟨he, _⟩
      · exact le_of_lt h
      · exact le_of_eq he
    · intro heq
      rcases hab with h | ⟨_, hle⟩
      · exact absurd heq (ne_of_lt h)
      · exact hle

/-- Witness for `c4_sorted_desc` at `k = 2` on a three-entry index. -/
theorem c4_witness :
    1 ≤ (2 : ℤ)
    ∧ ((retrieve_relevant_chunks [['a'], ['b'], ['c']] [1, 3, 2] 2).length
        = min (2 : ℤ).toNat ([(1 : ℚ), 3, 2] : List ℚ).length
      ∧ (retrieve_relevant_chunks [['a'], ['b'], ['c']] [1, 3, 2] 2).Pairwise
          (fun a b => b.similarity ≤ a.similarity
            ∧ (b.similarity = a.similarity → b.index ≤ a.index))) :=
  ⟨by decide, c4_sorted_desc [['a'], ['b'], ['c']] [1, 3, 2] 2 (by decide)⟩

/-- C5 (amended): every re-ranked hit keeps its chunk, similarity and index,
and carries the score computed by the code's rule (`scoreOf`): keep every
digit and dot character of the stripped response, parse the concatenation
with `float`, clamp to `[0, 10]`; when the scoring call fails (and likewise
when parsing raises), the fallback `similarity * 10` applies to that hit
alone. -/
theorem c5_score_rule (retrieved : List Hit)
    (scoreFn : Hit → Except Unit (List Char)) (h : Hit)
    (hm : h ∈ rerank_chunks retrieved scoreFn) :
    ∃ h₀, h₀ ∈ retrieved ∧ h.chunk = h₀.chunk ∧ h.similarity = h₀.similarity
      ∧ h.index = h₀.index
      ∧ h.rerank_score = some (scoreOf (scoreFn h₀) h₀.similarity)
      ∧ ∀ e : Unit, scoreFn h₀ = .error e →
          h.rerank_score = some (h₀.similarity * 10) := by
  unfold rerank_chunks at hm
  split at hm
  · simp at hm
  · rw [List.mem_insertionSort] at hm
    rcases List.mem_map.mp hm with ⟨h₀, hh₀, rfl⟩
    exact ⟨h₀, hh₀, rfl, rfl, rfl, rfl, fun e he => by simp [scoreOf, he]⟩

/-- Witness for `c5_score_rule`: the single hit scored with the response
`"7 out of 10"`. -/
theorem c5_witness :
    ∃ h₀, h₀ ∈ [hitPlain] ∧ hitSeven.chunk = h₀.chunk
      ∧ hitSeven.similarity = h₀.similarity ∧ hitSeven.index = h₀.index
      ∧ hitSeven.rerank_score = some (scoreOf (stubScoreSeven h₀) h₀.similarity)
      ∧ ∀ e : Unit, stubScoreSeven h₀ = .error e →
          hitSeven.rerank_score = some (h₀.similarity * 10) :=
  c5_score_rule [hitPlain] stubScoreSeven hitSeven (by decide)

/-- C10: the context block of `generate_answer` is invariant under dropping
every hit after the first 3 and under truncating every chunk text to its
first 800 characters: the caps `relevant_chunks[:3]` and
`chunk['chunk'][:800]` are fixed constants of the generator (whose signature
takes no chunk-count or character-cap parameter). -/
theorem c10_context_caps (hits : List Hit) :
    buildContext hits = buildContext (hits.take 3)
    ∧ buildContext (hits.map fun h => { h with chunk := h.chunk.take 800 })
      = buildContext hits := by
  have key : ∀ (l : List Hit) (n : ℕ),
      ((l.map fun h => { h with chunk := h.chunk.take 800 }).enumFrom n).mapM
        (fun ie : ℕ × Hit =>
          match ie.2.rerank_score with
          | some r => Except.ok (⟨ie.1 + 1, r, ie.2.chunk.take 800⟩ : Excerpt)
          | none => Except.error ())
      = (l.enumFrom n).mapM
        (fun ie : ℕ × Hit =>
          match ie.2.rerank_score with
          | some r => Except.ok (⟨ie.1 + 1, r, ie.2.chunk.take 800⟩ : Excerpt)
          | none => Except.error ()) := by
    intro l
    induction l with
    | nil => intro n; rfl
    | cons a t ih =>
      intro n
      simp only [List.map_cons, List.enumFrom_cons, List.mapM_cons]
      rw [ih]
      cases hr : a.rerank_score <;> simp [hr, List.take_take]
  constructor
  · unfold buildContext
    rw [List.take_take]
    norm_num
  · unfold buildContext
    unfold List.enum
    rw [← List.map_take]
    exact key (hits.take 3) 0

lemma length_pyStrip_le (l : List Char) : (pyStrip l).length ≤ l.length := by
  unfold pyStrip
  rw [List.length_reverse]
  calc ((l.dropWhile pyWS).reverse.dropWhile pyWS).length
      ≤ (l.dropWhile pyWS).reverse.length := (List.dropWhile_sublist pyWS).length_le
    _ = (l.dropWhile pyWS).length := List.length_reverse _
    _ ≤ l.length := (List.dropWhile_sublist pyWS).length_le

lemma length_tail_le (l : List Char) (ov : ℕ) :
    ((if 0 < ov then pySliceFrom l (-(ov : ℤ)) else []) : List Char).length ≤ ov := by
  split
  case isTrue h =>
    unfold pySliceFrom pySliceIdx
    rw [List.length_drop, if_pos (by omega : -(ov : ℤ) < 0)]
    omega
  case isFalse h => simp

lemma chunkStep_fits (maxc ov : ℕ) (st : List (List Char) × List Char)
    (p : List Char) (hfit : st.2.length + p.length + 1 ≤ maxc) :
    chunkStep maxc ov st p = (st.1, pyStrip (st.2 ++ '\n' :: p)) := by
  unfold chunkStep
  rw [if_pos hfit]

lemma chunkStep_close (maxc ov : ℕ) (st : List (List Char) × List Char)
    (p : List Char) (hfit : ¬ (st.2.length + p.length + 1 ≤ maxc))
    (hne : st.2 ≠ []) :
    chunkStep maxc ov st p
    = (st.1 ++ [st.2],
        pyStrip ((if 0 < ov then pySliceFrom st.2 (-(ov : ℤ)) else [])
          ++ '\n' :: p)) := by
  unfold chunkStep
  rw [if_neg hfit, if_pos hne]

lemma chunkStep_carry (maxc ov : ℕ) (st : List (List Char) × List Char)
    (p : List Char) (hfit : ¬ (st.2.length + p.length + 1 ≤ maxc))
    (hne : st.2 ≠ []) (hlen : st.2.length ≤ ov) :
    chunkStep maxc ov st p = (st.1 ++ [st.2], pyStrip (st.2 ++ '\n' :: p)) := by
  rw [chunkStep_close maxc ov st p hfit hne]
  have h0 : 0 < ov := lt_of_lt_of_le (List.length_pos.mpr hne) hlen
  have hall : pySliceFrom st.2 (-(ov : ℤ)) = st.2 := by
    unfold pySliceFrom pySliceIdx
    rw [if_pos (by omega : -(ov : ℤ) < 0)]
    have hz : (max 0 ((st.2.length : ℤ) + -(ov : ℤ))).toNat = 0 := by omega
    rw [hz, List.drop_zero]
  rw [if_pos h0, hall]

lemma chunkStep_bound (maxc ov : ℕ) (st : List (List Char) × List Char)
    (p : List Char) (hp : p.length + ov + 1 ≤ maxc)
    (h1 : ∀ c ∈ st.1, c.length ≤ maxc) (h2 : st.2.length ≤ maxc) :
    (∀ c ∈ (chunkStep maxc ov st p).1, c.length ≤ maxc)
    ∧ (chunkStep maxc ov st p).2.length ≤ maxc := by
  by_cases hfit : st.2.length + p.length + 1 ≤ maxc
  · rw [chunkStep_fits maxc ov st p hfit]
    dsimp only
    refine ⟨h1, ?_⟩
    have hs := length_pyStrip_le (st.2 ++ '\n' :: p)
    rw [List.length_append, List.length_cons] at hs
    omega
  · by_cases hne : st.2 = []
    · exfalso
      rw [hne] at hfit
      simp only [List.length_nil, Nat.zero_add] at hfit
      omega
    · rw [chunkStep_close maxc ov st p hfit hne]
      dsimp only
      constructor
      · intro c hc
        rcases List.mem_append.mp hc with hmem | hmem
        · exact h1 c hmem
        · rw [List.mem_singleton] at hmem
          subst hmem
          exact h2
      · have htl := length_tail_le st.2 ov
        have hs := length_pyStrip_le
          ((if 0 < ov then pySliceFrom st.2 (-(ov : ℤ)) else []) ++ '\n' :: p)
        rw [List.length_append, List.length_cons] at hs
        omega

lemma chunkFold_bound (maxc ov : ℕ) (ps : List (List Char)) :
    ∀ st : List (List Char) × List Char,
    (∀ p ∈ ps, p.length + ov + 1 ≤ maxc) →
    (∀ c ∈ st.1, c.length ≤ maxc) → st.2.length ≤ maxc →
    (∀ c ∈ (ps.foldl (chunkStep maxc ov) st).1, c.length ≤ maxc)
    ∧ (ps.foldl (chunkStep maxc ov) st).2.length ≤ maxc := by
  induction ps with
  | nil => exact fun st _ h1 h2 => ⟨h1, h2⟩
  | cons p t ih =>
    intro st hps h1 h2
    rw [List.foldl_cons]
    have hstep := chunkStep_bound maxc ov st p (hps p (by simp)) h1 h2
    exact ih _ (fun q hq => hps q (by simp [hq])) hstep.1 hstep.2

/-- C6 (amended): every chunk emitted by lab4's `chunk_text` has length
`≤ max_chars` provided every paragraph satisfies
`length + overlap + 1 ≤ max_chars` (which forces `overlap < max_chars`).
This hypothesis is necessary: a paragraph that
alone exceeds `max_chars` is hard-cut to exactly `max_chars` only when the
running buffer is empty — when the buffer is non-empty the oversized
paragraph is appended whole to the overlap tail and the emitted chunk
exceeds `max_chars`. -/
theorem c6_bounded_when_paras_fit (text : List Char) (maxc ov : ℕ)
    (c : List Char)
    (hpar : ∀ p ∈ pyParas text, p.length + ov + 1 ≤ maxc)
    (hc : c ∈ chunk_text text maxc ov) : c.length ≤ maxc := by
  unfold chunk_text at hc
  have hfold := chunkFold_bound maxc ov (pyParas text) ([], []) hpar
    (by simp) (by simp)
  by_cases h2 : ((pyParas text).foldl (chunkStep maxc ov) ([], [])).2 = []
  · rw [if_neg (not_not_intro h2)] at hc
    exact hfold.1 c hc
  · rw [if_pos h2] at hc
    rcases List.mem_append.mp hc with hm | hm
    · exact hfold.1 c hm
    · rw [List.mem_singleton] at hm
      subst hm
      exact hfold.2

/-- Witness for `c6_bounded_when_paras_fit` on the two-paragraph text
`"ab\ncd"` with `max_chars = 10, overlap = 2`. -/
theorem c6_witness : ('a' :: 'b' :: '\n' :: 'c' :: 'd' :: []).length ≤ 10 :=
  c6_bounded_when_paras_fit ('a' :: 'b' :: '\n' :: 'c' :: 'd' :: []) 10 2
    ('a' :: 'b' :: '\n' :: 'c' :: 'd' :: []) (by decide) (by decide)

/-- C7 (amended): lab4's `chunk_text` performs no validation of
`overlap ≥ max_chars`: it proceeds with the invalid value as given.  On
`"ab\ncd\nef"` with `max_chars = 3`, every `overlap ≥ 5` produces the same
mis-chunked output in which each closed buffer is carried whole into the next
chunk — an output no clamped (valid) overlap produces, and no error is raised (the function is total and returns it). -/
theorem c7_invalid_overlap_used (ov : ℕ) (h : 5 ≤ ov) :
    chunk_text sampleText 3 ov = overlapFiveOut := by
  have hp : pyParas sampleText = [['a', 'b'], ['c', 'd'], ['e', 'f']] := by decide
  unfold chunk_text
  rw [hp]
  simp only [List.foldl_cons, List.foldl_nil]
  rw [chunkStep_fits 3 ov ([], []) ['a', 'b'] (by decide)]
  have e1 : pyStrip (([] : List Char) ++ '\n' :: ['a', 'b']) = ['a', 'b'] := by decide
  rw [e1]
  rw [chunkStep_carry 3 ov ([], ['a', 'b']) ['c', 'd'] (by decide) (by decide)
    (by simp; omega)]
  have e2 : pyStrip (['a', 'b'] ++ '\n' :: ['c', 'd'])
      = ['a', 'b', '\n', 'c', 'd'] := by decide
  rw [e2]
  rw [chunkStep_carry 3 ov ([] ++ [['a', 'b']], ['a', 'b', '\n', 'c', 'd'])
    ['e', 'f'] (by decide) (by decide) (by simp; omega)]
  have e3 : pyStrip (['a', 'b', '\n', 'c', 'd'] ++ '\n' :: ['e', 'f'])
      = ['a', 'b', '\n', 'c', 'd', '\n', 'e', 'f'] := by decide
  rw [e3]
  decide

/-- Witness for `c7_invalid_overlap_used` at `overlap = 7`. -/
theorem c7_witness : chunk_text sampleText 3 7 = overlapFiveOut :=
  c7_invalid_overlap_used 7 (by omega)

lemma collAdd_ok_eq (s : Store) (entries : List (String × List Char))
    (s2 : Store) (h : collAdd s entries = .ok s2) : s2 = s ++ entries := by
  unfold collAdd at h
  split at h
  · exact absurd h (by simp)
  · rw [Except.ok.injEq] at h
    exact h.symm

lemma stepItem_eq (s : Store) (e : String × List Char) :
    stepItem s e = if storeHas s e.1 = true then s else s ++ [e] := by
  unfold stepItem collAdd
  by_cases h : storeHas s e.1 = true
  · have hc : (([e].any fun x => storeHas s x.1) = true
        ∨ ¬ ([e].map Prod.fst).Nodup) := Or.inl (by simp [h])
    rw [if_pos hc, if_pos h]
  · have hc : ¬ (([e].any fun x => storeHas s x.1) = true
        ∨ ¬ ([e].map Prod.fst).Nodup) := by simp [h]
    rw [if_neg hc, if_neg h]

lemma storeHas_append_left (s t : Store) (i : String)
    (h : storeHas s i = true) : storeHas (s ++ t) i = true := by
  unfold storeHas at h ⊢
  rw [List.any_append, h, Bool.true_or]

lemma stepItem_mono (s : Store) (e : String × List Char) (i : String)
    (h : storeHas s i = true) : storeHas (stepItem s e) i = true := by
  rw [stepItem_eq]
  split
  · exact h
  · exact storeHas_append_left _ _ _ h

lemma stepItem_has (s : Store) (e : String × List Char) :
    storeHas (stepItem s e) e.1 = true := by
  rw [stepItem_eq]
  split
  case isTrue h => exact h
  case isFalse h =>
    unfold storeHas
    rw [List.any_append]
    simp

lemma stepItem_frozen (s : Store) (e : String × List Char)
    (h : storeHas s e.1 = true) : stepItem s e = s := by
  rw [stepItem_eq, if_pos h]

lemma addItems_cons (s : Store) (e : String × List Char)
    (t : List (String × List Char)) :
    addItems s (e :: t) = addItems (stepItem s e) t := rfl

lemma addItems_mono (b : List (String × List Char)) :
    ∀ (s : Store) (i : String), storeHas s i = true →
      storeHas (addItems s b) i = true := by
  induction b with
  | nil => exact fun s i h => h
  | cons e t ih =>
    intro s i h
    rw [addItems_cons]
    exact ih _ i (stepItem_mono s e i h)

lemma addItems_has (b : List (String × List Char)) :
    ∀ s : Store, ∀ e ∈ b, storeHas (addItems s b) e.1 = true := by
  induction b with
  | nil => intro s e he; simp at he
  | cons e0 t ih =>
    intro s e he
    rcases List.mem_cons.mp he with rfl | hm
    · rw [addItems_cons]
      exact addItems_mono t _ _ (stepItem_has s _)
    · rw [addItems_cons]
      exact ih _ e hm

lemma addItems_frozen (b : List (String × List Char)) :
    ∀ s : Store, (∀ e ∈ b, storeHas s e.1 = true) → addItems s b = s := by
  induction b with
  | nil => intro s _; rfl
  | cons e0 t ih =>
    intro s h
    rw [addItems_cons, stepItem_frozen s e0 (h e0 (by simp))]
    exact ih s fun e he => h e (by simp [he])

lemma stepBatch_mono (s : Store) (b : List (String × List Char)) (i : String)
    (h : storeHas s i = true) : storeHas (stepBatch s b) i = true := by
  unfold stepBatch
  split
  next s2 heq =>
    rw [collAdd_ok_eq s b s2 heq]
    exact storeHas_append_left _ _ _ h
  next heq => exact addItems_mono b s i h

lemma stepBatch_has (s : Store) (b : List (String × List Char)) :
    ∀ e ∈ b, storeHas (stepBatch s b) e.1 = true := by
  intro e he
  unfold stepBatch
  split
  next s2 heq =>
    rw [collAdd_ok_eq s b s2 heq]
    unfold storeHas
    rw [List.any_append]
    have hb : (b.any fun x => x.1 == e.1) = true :=
      List.any_eq_true.mpr ⟨e, he, by simp⟩
    rw [hb, Bool.or_true]
  next heq => exact addItems_has b s e he

lemma stepBatch_frozen (s : Store) (b : List (String × List Char))
    (h : ∀ e ∈ b, storeHas s e.1 = true) : stepBatch s b = s := by
  unfold stepBatch
  split
  next s2 heq =>
    cases b with
    | nil =>
      rw [collAdd_ok_eq s [] s2 heq]
      simp
    | cons e0 t =>
      exfalso
      unfold collAdd at heq
      rw [if_pos (Or.inl (by simp [h e0 (by simp)]))] at heq
      exact absurd heq (by simp)
  next heq => exact addItems_frozen b s h

lemma foldBatches_mono (bs : List (List (String × List Char))) :
    ∀ (s : Store) (i : String), storeHas s i = true →
      storeHas (bs.foldl stepBatch s) i = true := by
  induction bs with
  | nil => exact fun s i h => h
  | cons b t ih =>
    intro s i h
    rw [List.foldl_cons]
    exact ih _ i (stepBatch_mono s b i h)

lemma foldBatches_has (bs : List (List (String × List Char))) :
    ∀ s : Store, ∀ b ∈ bs, ∀ e ∈ b,
      storeHas (bs.foldl stepBatch s) e.1 = true := by
  induction bs with
  | nil => intro s b hb; simp at hb
  | cons b0 t ih =>
    intro s b hb e he
    rcases List.mem_cons.mp hb with rfl | hm
    · rw [List.foldl_cons]
      exact foldBatches_mono t _ _ (stepBatch_has s b e he)
    · rw [List.foldl_cons]
      exact ih _ b hm e he

lemma foldBatches_frozen (bs : List (List (String × List Char))) :
    ∀ s : Store, (∀ b ∈ bs, ∀ e ∈ b, storeHas s e.1 = true) →
      bs.foldl stepBatch s = s := by
  induction bs with
  | nil => intro s _; rfl
  | cons b0 t ih =>
    intro s h
    rw [List.foldl_cons, stepBatch_frozen s b0 (h b0 (by simp))]
    exact ih s fun b hb e he => h b (by simp [hb]) e he

/-- C8: re-running `build_or_refresh_collection` on the same documents leaves
the store identical (hence the same stored chunk count): every chunk id is
the deterministic `"\x7bsourceId\x7d::chunk-\x7bindex\x7d"` key (`chunkKey` inside
`buildEntries`), after the first run every key is present, and the second
run's batch adds all fail over to per-item adds that skip every
already-present key — no duplicate entry is created. -/
theorem c8_ingest_idempotent (s : Store) (pdfs : List (String × List Char)) :
    build_or_refresh_collection (build_or_refresh_collection s pdfs) pdfs
      = build_or_refresh_collection s pdfs
    ∧ (build_or_refresh_collection (build_or_refresh_collection s pdfs) pdfs).length
      = (build_or_refresh_collection s pdfs).length := by
  have heq : build_or_refresh_collection (build_or_refresh_collection s pdfs) pdfs
      = build_or_refresh_collection s pdfs := by
    unfold build_or_refresh_collection
    exact foldBatches_frozen _ _ fun b hb e he => foldBatches_has _ s b hb e he
  exact ⟨heq, by rw [heq]⟩

end Rag
